import Mathlib

/-!
Verification of the gollama-ui chat-streaming orchestration engine.

This file embeds, in Lean, the parts of the Go sources that the claims
touch:

* the streaming data model (`internal/client` structs),
* the tool-call accumulator and the orchestration loop of
  `internal/handlers/chat.go` (`streamWithFunctionCalling`,
  `executeAndContinue`),
* the SSE-line-to-event translation performed by the goroutine inside
  `ChatStream` of the llama.cpp client,
* the tool registry/executor of the handlers package
  (`ExecuteToolCall`, `executeWebSearch`, `executeGetNews`,
  `executeAnalyzePortfolio`).

External collaborators (the HTTP backends, Go's standard-library JSON
codec) are modelled as explicit function parameters: the embedding is a
function of their answers, exactly as the Go code is a function of what
those calls return.  Go maps guarantee no iteration order, so every
operation of the code that ranges over a map takes the order in which
the runtime happens to enumerate the keys as an explicit parameter.
-/

namespace Gollama

/-- Go struct `client.FunctionCall`: `{Name, Arguments string}`. -/
structure FunctionCall where
  name : String
  arguments : String
deriving DecidableEq

/-- Go struct `client.ToolCall`: `{ID, Type string; Function FunctionCall}`. -/
structure ToolCall where
  id : String
  type : String
  function : FunctionCall
deriving DecidableEq

/-- Go struct `client.ChatMessage`.  Field defaults are Go's zero values. -/
structure ChatMessage where
  role : String := ""
  content : String := ""
  tool_call_id : String := ""
  tool_calls : List ToolCall := []
deriving DecidableEq

/-- Go struct `client.ChatRequest` (the `Stream`/`Tools` fields play no
role in any claim: `Stream` is forced to `true` by the client and the
`tools` parameter is never sent to the backend, see the comment in
`ChatStream`). -/
structure ChatRequest where
  model : String := ""
  messages : List ChatMessage := []
deriving DecidableEq

/-- Go struct `client.ChatResponse`: one streaming chunk. -/
structure ChatResponse where
  model : String := ""
  message : ChatMessage := {}
  done : Bool := false
  done_reason : String := ""
  error : String := ""
deriving DecidableEq

/-- The zero value of `client.ToolCall`, produced by reading a missing
key of the Go map `toolCallsMap`. -/
def emptyToolCall : ToolCall := { id := "", type := "", function := { name := "", arguments := "" } }

/-- Model of `toolCallsMap` in `streamWithFunctionCalling` (chat.go line 94):
a Go `map[string]client.ToolCall`, modelled as an association list kept
in insertion order.  Go guarantees no iteration order, so operations
that range over the map receive the runtime's enumeration order as a
parameter. -/
abbrev ToolCallsMap := List (String × ToolCall)

/-- Binding of key `k`, if present (first occurrence). -/
def mapFind : ToolCallsMap → String → Option ToolCall
  | [], _ => none
  | p :: rest, k => if p.1 = k then some p.2 else mapFind rest k

/-- Go map read `toolCallsMap[k]`: the binding, or the zero value. -/
def mapGet (m : ToolCallsMap) (k : String) : ToolCall :=
  (mapFind m k).getD emptyToolCall

/-- Go map write `toolCallsMap[k] = v`: replace the binding in place,
or add one. -/
def mapSet (m : ToolCallsMap) (k : String) (v : ToolCall) : ToolCallsMap :=
  match m with
  | [] => [(k, v)]
  | p :: rest => if p.1 = k then (k, v) :: rest else p :: mapSet rest k v

/-- Go loop `for _, tc := range m` under the enumeration order `ord` chosen by
the Go runtime: the values of `m`, visited in the order their keys
appear in `ord`.  `ord` is a faithful enumeration when it is a
permutation of `m`'s keys (`ValidOrd`). -/
def rangeOver (m : ToolCallsMap) (ord : List String) : List ToolCall :=
  ord.filterMap (fun k => mapFind m k)

/-- Property: `ord` enumerates each key of `m` exactly once — what Go guarantees
(and all it guarantees) about one `range` over the map. -/
def ValidOrd (m : ToolCallsMap) (ord : List String) : Prop :=
  (m.map Prod.fst).Perm ord

/-- Invariant of the maps `streamWithFunctionCalling` builds: every
record is stored under its own call id (`toolCallsMap[tc.ID] =
existing` with `existing.ID = tc.ID`, and the id-less-fragment branch
writes back under `existing.ID`). -/
def WellKeyed (m : ToolCallsMap) : Prop :=
  ∀ p ∈ m, p.2.id = p.1

/-- One iteration of the delta-merging loop of
`streamWithFunctionCalling` (chat.go lines 129–156) on a single
`ToolCallDelta` `tc`.  `ords` is the oracle of map-enumeration orders;
its head is consumed exactly when the code ranges over the map (the
id-less-fragment branch). -/
def collectDelta (m : ToolCallsMap) (ords : List (List String)) (tc : ToolCall) :
    ToolCallsMap × List (List String) :=
  if tc.id ≠ "" then
    -- chunk with an ID: create/update the record keyed by it
    -- (overwrite type/name when the chunk carries them, set the id,
    -- append a non-empty argument fragment)
    let existing := mapGet m tc.id
    let updated : ToolCall :=
      { id := tc.id,
        type := if tc.type ≠ "" then tc.type else existing.type,
        function :=
          { name := if tc.function.name ≠ "" then tc.function.name else existing.function.name,
            arguments :=
              if tc.function.arguments ≠ "" then
                existing.function.arguments ++ tc.function.arguments
              else existing.function.arguments } }
    (mapSet m tc.id updated, ords)
  else if tc.function.arguments ≠ "" ∧ tc.function.name = "" then
    -- argument-only chunk: append to the first already-identified record
    -- in the order the runtime enumerates the map
    match (rangeOver m (ords.headD [])).find?
        (fun e => e.id != "" && e.function.name != "") with
    | some e =>
        (mapSet m e.id { e with function := { e.function with
            arguments := e.function.arguments ++ tc.function.arguments } }, ords.tail)
    | none => (m, ords.tail)
  else
    (m, ords)

/-- Fold `collectDelta` over a delta sequence, threading the oracle. -/
def collectDeltas (m : ToolCallsMap) (ords : List (List String)) :
    List ToolCall → ToolCallsMap × List (List String)
  | [] => (m, ords)
  | tc :: rest =>
      let s := collectDelta m ords tc
      collectDeltas s.1 s.2 rest

/-- The accumulator of §4.2: fold a whole delta sequence into the map,
starting from the empty map of a fresh round. -/
def accumulate (ords : List (List String)) (deltas : List ToolCall) : ToolCallsMap :=
  (collectDeltas [] ords deltas).1

/-- The eligibility filter applied when the map is converted back to a
slice (chat.go lines 110–115 and 186–190): keep the records whose id
and function name are both non-empty, in enumeration order `ord`. -/
def buildEligible (m : ToolCallsMap) (ord : List String) : List ToolCall :=
  (rangeOver m ord).filter (fun tc => tc.id != "" && tc.function.name != "")

/-! Section: The orchestration loop of chat.go

`streamWithFunctionCalling` reads one round of `ChatResponse` events
from the backend channel, forwards frames to the SSE writer, merges
tool-call deltas, and on completion either stops or hands over to
`executeAndContinue`, which appends the assistant/tool messages to the
history, invokes the executor per record, re-invokes `ChatStream` with
the updated history and streams that second round verbatim.

The model is a function of: the executor's behaviour (`exec`), the
event list each `ChatStream` call yields (`none` models the call
returning an error before any event, a list ending without a `done`
event models the channel being closed by the producer), and the map
enumeration orders.  The `ctx.Done()` branches (real-time cancellation)
and the `json.Marshal` failure branch (unreachable for these value
types) are outside the model. -/

/-- One SSE frame written to the client: either a marshalled
`ChatResponse` chunk, or one of the literal `done:true` error objects
written by `fmt.Fprintf`. -/
inductive Frame where
  | data (r : ChatResponse)
  | errFrame (msg : String)
deriving DecidableEq

/-- A frame that tells the client the stream is over: an error object
(always carrying `done:true`) or a forwarded chunk with `done:true`. -/
def Frame.isTerminal : Frame → Bool
  | .data r => r.done
  | .errFrame _ => true

/-- What one round of `streamWithFunctionCalling`/`executeAndContinue`
produces, seen from outside: the frames written to the client, the
executor invocations `(name, arguments)` in invocation order, and the
request passed to the second `ChatStream` call when one is issued. -/
structure RunResult where
  frames : List Frame
  executed : List (String × String)
  resumeReq : Option ChatRequest
deriving DecidableEq

/-- The tool-role message appended for one record by the loop of
`executeAndContinue` (chat.go lines 220–233): the executor's result,
or the formatted error `"Error executing tool %s: %v"`. -/
def toolResultMessage (exec : String → String → Except String String) (tc : ToolCall) :
    ChatMessage :=
  { role := "tool",
    content :=
      match exec tc.function.name tc.function.arguments with
      | .ok r => r
      | .error e => "Error executing tool " ++ tc.function.name ++ ": " ++ e,
    tool_call_id := tc.id }

/-- The forwarding loop over the second round's events (chat.go lines
244–270): every chunk is forwarded, and the loop returns on `done` or
when the channel closes. -/
def streamFinal : List ChatResponse → List Frame
  | [] => []
  | r :: rest => Frame.data r :: (if r.done then [] else streamFinal rest)

/-- Embedding of `executeAndContinue` (chat.go lines 209–271): append the assistant
message carrying the tool calls, execute each record appending one
tool-role message regardless of outcome, then re-invoke `ChatStream`
with the updated history and stream its events.  `round2` is that
second call's outcome (`none`: it returned an error). -/
def executeAndContinue (exec : String → String → Except String String)
    (round2 : Option (List ChatResponse)) (req : ChatRequest)
    (assistantContent : String) (toolCalls : List ToolCall) : RunResult :=
  let withAsst := req.messages ++
    [{ role := "assistant", content := assistantContent, tool_calls := toolCalls }]
  let msgs := toolCalls.foldl (fun acc tc => acc ++ [toolResultMessage exec tc]) withAsst
  let newReq : ChatRequest := { req with messages := msgs }
  let invocations := toolCalls.map (fun tc => (tc.function.name, tc.function.arguments))
  match round2 with
  | none =>
      { frames := [Frame.errFrame "Failed to get final response"],
        executed := invocations, resumeReq := some newReq }
  | some evs =>
      { frames := streamFinal evs, executed := invocations, resumeReq := some newReq }

/-- The per-round mutable state of `streamWithFunctionCalling`:
`assistantContent`, `toolCallsMap` and `finishReason` (chat.go lines
92–95), plus the oracle of map-enumeration orders. -/
structure RoundState where
  assistantContent : String := ""
  toolCallsMap : ToolCallsMap := []
  finishReason : String := ""
  ords : List (List String) := []

/-- Processing of one received `ChatResponse` before the done-check
(chat.go lines 127–167): merge the chunk's tool-call deltas, append
its content, latch a non-empty `done_reason`. -/
def stepState (st : RoundState) (r : ChatResponse) : RoundState :=
  let s := collectDeltas st.toolCallsMap st.ords r.message.tool_calls
  { assistantContent :=
      if r.message.content ≠ "" then st.assistantContent ++ r.message.content
      else st.assistantContent,
    toolCallsMap := s.1,
    finishReason := if r.done_reason ≠ "" then r.done_reason else st.finishReason,
    ords := s.2 }

/-- The receive loop of `streamWithFunctionCalling` (chat.go lines
98–205).  The input list models the events the channel will yield; the
end of the list is the producer closing the channel (`ok == false`).
`sliceOrd` is the enumeration order the runtime uses when the map is
converted back to a slice. -/
def processEvents (exec : String → String → Except String String)
    (round2 : Option (List ChatResponse)) (req : ChatRequest)
    (sliceOrd : List String) (st : RoundState) : List ChatResponse → RunResult
  | [] =>
      -- channel closed: execute accumulated eligible calls (no check of
      -- the finish reason on this path), else just return
      if st.toolCallsMap.length > 0 then
        let toolCalls := buildEligible st.toolCallsMap sliceOrd
        if toolCalls.length > 0 then
          executeAndContinue exec round2 req st.assistantContent toolCalls
        else { frames := [], executed := [], resumeReq := none }
      else { frames := [], executed := [], resumeReq := none }
  | r :: rest =>
      let st' := stepState st r
      let here : List Frame :=
        if r.message.content ≠ "" ∨ r.message.tool_calls ≠ [] then [Frame.data r] else []
      let tail : RunResult :=
        if r.done then
          if st'.toolCallsMap.length > 0 ∧ st'.finishReason = "tool_calls" then
            let toolCalls := buildEligible st'.toolCallsMap sliceOrd
            if toolCalls.length > 0 then
              executeAndContinue exec round2 req st'.assistantContent toolCalls
            else { frames := [], executed := [], resumeReq := none }
          else { frames := [], executed := [], resumeReq := none }
        else processEvents exec round2 req sliceOrd st' rest
      { tail with frames := here ++ tail.frames }

/-- Embedding of `streamWithFunctionCalling` (chat.go lines 78–206).  `round1` is
the first `ChatStream` call's outcome (`none`: it returned an error
before any event was produced). -/
def streamWithFunctionCalling (exec : String → String → Except String String)
    (round1 round2 : Option (List ChatResponse))
    (ords : List (List String)) (sliceOrd : List String)
    (req : ChatRequest) : RunResult :=
  match round1 with
  | none => { frames := [Frame.errFrame "Failed to start chat"], executed := [], resumeReq := none }
  | some evs => processEvents exec round2 req sliceOrd
      { assistantContent := "", toolCallsMap := [], finishReason := "", ords := ords } evs

/-- The way a round terminates, in the spec's vocabulary: whether it
ended with a completion event (`true`) or with the channel closing
silently (`false`), together with the finish reason and the
accumulated tool-call map at that point.  Stated from the claim's
words ("a round completes with reason tool_calls" / "a round that ends
without a Completion") to compare against `processEvents`. -/
def roundEnd (st : RoundState) : List ChatResponse → Bool × String × ToolCallsMap
  | [] => (false, st.finishReason, st.toolCallsMap)
  | r :: rest =>
      let st' := stepState st r
      if r.done then (true, st'.finishReason, st'.toolCallsMap)
      else roundEnd st' rest

/-! Section: The transport adapter: `ChatStream`'s event production

The goroutine inside `Client.ChatStream` (llama.cpp client, lines
215–282) scans the SSE body line by line and pushes `ChatResponse`
events on the channel.  We model it as a function of the body's lines
plus the scanner's final error (`scanErr`, `none` for a clean EOF),
with Go's `json.Unmarshal` of a chunk as a parameter `parse` carrying
the decoder's error message on failure. -/

/-- Go struct `client.OpenAIChoice`. -/
structure OpenAIChoice where
  index : Int := 0
  delta : ChatMessage := {}
  finish_reason : Option String := none
deriving DecidableEq

/-- Go struct `client.OpenAIChatChunk` (the `id`/`object`/`created`
fields are never read by the goroutine). -/
structure OpenAIChatChunk where
  model : String := ""
  choices : List OpenAIChoice := []
deriving DecidableEq

/-- The event sequence `ChatStream`'s goroutine delivers on the channel
for a given list of body lines.  The function returning `[]` (or a
final event with `done = false`) models the goroutine closing the
channel without a terminal event. -/
def ChatStreamEvents (parse : String → Except String OpenAIChatChunk)
    (model : String) (scanErr : Option String) : List String → List ChatResponse
  | [] =>
      -- scanner exhausted: emit an error event only if scanning failed
      match scanErr with
      | some e => [{ model := model, done := true, error := "scanner error: " ++ e }]
      | none => []
  | line :: rest =>
      if line = "" then ChatStreamEvents parse model scanErr rest
      else if line = "data: [DONE]" then [{ model := model, done := true }]
      else if ¬ line.startsWith "data: " then ChatStreamEvents parse model scanErr rest
      else
        match parse (line.drop 6) with
        | .error e => [{ model := model, done := true, error := "failed to parse chunk: " ++ e }]
        | .ok chunk =>
            match chunk.choices with
            | [] => ChatStreamEvents parse model scanErr rest
            | choice :: _ =>
                { model := chunk.model,
                  message := { role := choice.delta.role, content := choice.delta.content,
                               tool_calls := choice.delta.tool_calls },
                  done := choice.finish_reason.isSome,
                  done_reason := choice.finish_reason.getD "" } ::
                (if choice.finish_reason.isSome then []
                 else ChatStreamEvents parse model scanErr rest)

/-! Section: The tool registry and executor

`ToolExecutor.ExecuteToolCall` and the per-tool handlers.  The HTTP
clients (`SearchClient.Search`, `NewsClient.FetchNews`, the Sentinel
sub-analyses) and Go's `json.Unmarshal` are collaborators, passed in as
the fields of `ToolBackends`.  JSON numbers (Go `float64`) are modelled
as `Int`: no claim exercises fractional values, only presence and
string-typed fields. -/

/-- A decoded JSON value as Go's `map[string]interface{}` stores it.
`other` stands for the shapes the handlers never inspect (arrays,
nested objects): every type assertion on them fails, which is all the
code observes. -/
inductive JsonValue where
  | str (s : String)
  | num (n : Int)
  | boolean (b : Bool)
  | null
  | other
deriving DecidableEq

/-- A decoded JSON object: Go `map[string]interface{}` (keys unique). -/
abbrev JsonObj := List (String × JsonValue)

/-- Go type assertion `args[k].(string)`: `some s` iff `k` is bound to
a string. -/
def argString (args : JsonObj) (k : String) : Option String :=
  match (args.find? (fun p => p.1 == k)).map (fun p => p.2) with
  | some (JsonValue.str s) => some s
  | _ => none

/-- Go type assertion `args[k].(float64)` followed by `int(·)`. -/
def argNum (args : JsonObj) (k : String) : Option Int :=
  match (args.find? (fun p => p.1 == k)).map (fun p => p.2) with
  | some (JsonValue.num n) => some n
  | _ => none

/-- One result row of the ddgs search backend. -/
structure SearchResult where
  title : String
  href : String
  body : String
deriving DecidableEq

/-- One article of the news backend.  `publishedText` is the
`Published.Format("Jan 2, 2006 3:04 PM")` rendering of the article's
timestamp: the handler only ever interpolates that rendering. -/
structure NewsArticle where
  title : String
  source : String
  publishedText : String
  description : String
  link : String
deriving DecidableEq

/-- The argument struct of `executeAnalyzePortfolio`. -/
structure PortfolioArgs where
  query_type : String := ""
  focus_area : String := ""
deriving DecidableEq

/-- The collaborators of the executor.  `unmarshalArgs` is
`json.Unmarshal` into `map[string]interface{}`; `unmarshalPortfolio`
is `json.Unmarshal` of the same string into the
`{query_type, focus_area}` struct (missing fields decode to `""`).
`overview`…`fullAnalysis` stand for `executePortfolioOverview`,
`executeOpportunitiesAnalysis`, `executeRiskAnalysis`,
`executeMarketContextAnalysis` and `executeFullAnalysis`: their bodies
are HTTP fetches plus formatting of the fetched data, and no claim
depends on anything but their outcome. -/
structure ToolBackends where
  unmarshalArgs : String → Except String JsonObj
  unmarshalPortfolio : String → Except String PortfolioArgs
  search : String → Int → Except String (List SearchResult)
  fetchNews : String → Int → Except String (List NewsArticle)
  overview : Except String String
  opportunities : Except String String
  risk : Except String String
  marketContext : Except String String
  fullAnalysis : String → Except String String

/-- The per-result block written by `executeWebSearch`'s loop. -/
def searchResultLine (i : Nat) (r : SearchResult) : String :=
  toString (i + 1) ++ ". **" ++ r.title ++ "**\n" ++
  "   URL: " ++ r.href ++ "\n" ++
  "   " ++ r.body ++ "\n\n"

/-- Embedding of `executeWebSearch` (tools executor, lines 51–77). -/
def executeWebSearch (b : ToolBackends) (args : JsonObj) : Except String String :=
  match argString args "query" with
  | none => .error "query parameter is required"
  | some query =>
      if query = "" then .error "query parameter is required"
      else
        let maxResults := (argNum args "max_results").getD 5
        match b.search query maxResults with
        | .error e => .error ("search failed: " ++ e)
        | .ok results =>
            .ok ("Search results for '" ++ query ++ "':\n\n" ++
              String.join (results.enum.map (fun p => searchResultLine p.1 p.2)))

/-- The per-article block written by `executeGetNews`'s loop. -/
def newsArticleLine (i : Nat) (a : NewsArticle) : String :=
  toString (i + 1) ++ ". **" ++ a.title ++ "**\n" ++
  "   Source: " ++ a.source ++ "\n" ++
  "   Published: " ++ a.publishedText ++ "\n" ++
  (if a.description ≠ "" then "   " ++ a.description ++ "\n" else "") ++
  "   Read more: " ++ a.link ++ "\n\n"

/-- Embedding of `executeGetNews` (tools executor, lines 80–110): a missing or
non-string or empty `topic` falls back to the default `"world"`. -/
def executeGetNews (b : ToolBackends) (args : JsonObj) : Except String String :=
  let topic :=
    match argString args "topic" with
    | some t => if t = "" then "world" else t
    | none => "world"
  let maxArticles := (argNum args "max_articles").getD 10
  match b.fetchNews topic maxArticles with
  | .error e => .error ("failed to fetch news: " ++ e)
  | .ok articles =>
      .ok ("Latest " ++ topic ++ " news:\n\n" ++
        String.join (articles.enum.map (fun p => newsArticleLine p.1 p.2)))

/-- Embedding of `executeAnalyzePortfolio` (tools executor, lines 113–141). -/
def executeAnalyzePortfolio (b : ToolBackends) (arguments : String) : Except String String :=
  match b.unmarshalPortfolio arguments with
  | .error e => .error ("invalid arguments: " ++ e)
  | .ok args =>
      if args.query_type = "" then .error "query_type is required"
      else
        match args.query_type with
        | "overview" => b.overview
        | "opportunities" => b.opportunities
        | "risk" => b.risk
        | "market_context" => b.marketContext
        | "full_analysis" => b.fullAnalysis args.focus_area
        | _ => .error ("unknown query_type: " ++ args.query_type)

/-- Embedding of `ExecuteToolCall` (tools executor, lines 31–48): parse the
arguments first, then dispatch on the tool name. -/
def ExecuteToolCall (b : ToolBackends) (name arguments : String) : Except String String :=
  match b.unmarshalArgs arguments with
  | .error e => .error ("invalid arguments: " ++ e)
  | .ok args =>
      match name with
      | "web_search" => executeWebSearch b args
      | "get_news" => executeGetNews b args
      | "analyze_portfolio" => executeAnalyzePortfolio b arguments
      | _ => .error ("unknown tool: " ++ name)

/-! Section: Helper lemmas -/

lemma foldl_append_map {α β : Type} (f : α → β) (l : List α) (b : List β) :
    l.foldl (fun acc x => acc ++ [f x]) b = b ++ l.map f := by
  induction l generalizing b with
  | nil => simp
  | cons x xs ih => simp [ih]

lemma errorMessage_ne_empty (n e : String) :
    ("Error executing tool " ++ n ++ ": " ++ e) ≠ "" := by
  intro h
  have h1 : ("Error executing tool " ++ n ++ ": " ++ e).data.head? = some 'E' := by
    cases n; cases e; rfl
  rw [h] at h1
  exact absurd h1 (by decide)

lemma invalidArguments_ne_unknownTool (e s : String) :
    ("invalid arguments: " ++ e) ≠ ("unknown tool: " ++ s) := by
  intro h
  have h1 : ("invalid arguments: " ++ e).data.head? = some 'i' := by cases e; rfl
  have h2 : ("unknown tool: " ++ s).data.head? = some 'u' := by cases s; rfl
  rw [h, h2] at h1
  exact absurd (Option.some.inj h1) (by decide)

lemma executeAndContinue_resumeReq (exec : String → String → Except String String)
    (round2 : Option (List ChatResponse)) (req : ChatRequest)
    (content : String) (toolCalls : List ToolCall) :
    (executeAndContinue exec round2 req content toolCalls).resumeReq =
      some { req with messages := (req.messages ++
        [{ role := "assistant", content := content, tool_calls := toolCalls }] ++
        toolCalls.map (toolResultMessage exec)) } := by
  cases round2 <;> simp [executeAndContinue, foldl_append_map]

lemma executeAndContinue_executed (exec : String → String → Except String String)
    (round2 : Option (List ChatResponse)) (req : ChatRequest)
    (content : String) (toolCalls : List ToolCall) :
    (executeAndContinue exec round2 req content toolCalls).executed =
      toolCalls.map (fun tc => (tc.function.name, tc.function.arguments)) := by
  cases round2 <;> rfl

/-! Section: Claim C9 -/

/-- C9: for every tool name, registered or not, `ExecuteToolCall` on an
argument string that `json.Unmarshal` rejects returns the
invalid-arguments error and never the unknown-tool error: parsing
precedes dispatch on the name. -/
theorem parse_error_precedes_dispatch (b : ToolBackends) (name arguments e : String)
    (h : b.unmarshalArgs arguments = .error e) :
    ExecuteToolCall b name arguments = .error ("invalid arguments: " ++ e) ∧
    ∀ s, ExecuteToolCall b name arguments ≠ .error ("unknown tool: " ++ s) := by
  have hrun : ExecuteToolCall b name arguments = .error ("invalid arguments: " ++ e) := by
    unfold ExecuteToolCall
    rw [h]
  refine ⟨hrun, fun s hcontra => ?_⟩
  rw [hrun] at hcontra
  exact invalidArguments_ne_unknownTool e s (Except.error.inj hcontra)

theorem parse_error_precedes_dispatch_witness :
    ExecuteToolCall
      { unmarshalArgs := fun _ => .error "unexpected end of input",
        unmarshalPortfolio := fun _ => .ok {},
        search := fun _ _ => .ok [], fetchNews := fun _ _ => .ok [],
        overview := .ok "", opportunities := .ok "", risk := .ok "",
        marketContext := .ok "", fullAnalysis := fun _ => .ok "" }
      "no_such_tool" "not json" =
      .error ("invalid arguments: " ++ "unexpected end of input") :=
  (parse_error_precedes_dispatch _ "no_such_tool" "not json" "unexpected end of input" rfl).1

/-! Section: Claim C7 -/

/-- C7: when the executor fails on an eligible record (upstream
failures included), a tool-role message with that record's call id and
non-empty formatted error content is still appended to the history, and
the conversation proceeds to another generation round (a new
`ChatStream` request carrying the updated history is issued) instead of
terminating. -/
theorem failing_tool_surfaced_and_resumed (exec : String → String → Except String String)
    (round2 : Option (List ChatResponse)) (req : ChatRequest) (content : String)
    (toolCalls : List ToolCall) (tc : ToolCall) (e : String)
    (hmem : tc ∈ toolCalls)
    (hfail : exec tc.function.name tc.function.arguments = .error e) :
    ∃ newReq, (executeAndContinue exec round2 req content toolCalls).resumeReq = some newReq ∧
      ∃ msg ∈ newReq.messages, msg.role = "tool" ∧ msg.tool_call_id = tc.id ∧
        msg.content = "Error executing tool " ++ tc.function.name ++ ": " ++ e ∧
        msg.content ≠ "" := by
  refine ⟨_, executeAndContinue_resumeReq exec round2 req content toolCalls, ?_⟩
  refine ⟨toolResultMessage exec tc, ?_, rfl, rfl, ?_, ?_⟩
  · exact List.mem_append.mpr (Or.inr (List.mem_map.mpr ⟨tc, hmem, rfl⟩))
  · simp [toolResultMessage, hfail]
  · simp only [toolResultMessage, hfail]
    exact errorMessage_ne_empty tc.function.name e

theorem failing_tool_surfaced_and_resumed_witness :
    ∃ newReq,
      (executeAndContinue (fun _ _ => .error "boom") (some [])
        { model := "m", messages := [{ role := "user", content := "hi" }] } ""
        [⟨"1", "function", ⟨"web_search", "x"⟩⟩]).resumeReq = some newReq ∧
      ∃ msg ∈ newReq.messages, msg.role = "tool" ∧ msg.tool_call_id = "1" ∧
        msg.content = "Error executing tool " ++ "web_search" ++ ": " ++ "boom" ∧
        msg.content ≠ "" :=
  failing_tool_surfaced_and_resumed (fun _ _ => .error "boom") (some [])
    { model := "m", messages := [{ role := "user", content := "hi" }] } ""
    [⟨"1", "function", ⟨"web_search", "x"⟩⟩] ⟨"1", "function", ⟨"web_search", "x"⟩⟩
    "boom" (by decide) rfl

/-! Section: Claim C4 -/

/-- C4 fails on the code: the eligible records are collected by ranging
over the Go map `toolCallsMap`, whose enumeration order is not
call-arrival order and is not even a function of the input.  With two
eligible records `a` (arrived first) and `b`, the orders `[a, b]` and
`[b, a]` are both valid enumerations of the final map, and they give
the second `ChatStream` call two different histories: the resumed
transcript is not determined by the input delta sequence. -/
theorem mapOrder_nondeterminism_cex :
    ValidOrd (accumulate [] [⟨"a", "function", ⟨"f", "1"⟩⟩, ⟨"b", "function", ⟨"g", "2"⟩⟩])
      ["a", "b"] ∧
    ValidOrd (accumulate [] [⟨"a", "function", ⟨"f", "1"⟩⟩, ⟨"b", "function", ⟨"g", "2"⟩⟩])
      ["b", "a"] ∧
    (streamWithFunctionCalling (fun _ _ => .ok "r")
        (some [{ message := { tool_calls := [⟨"a", "function", ⟨"f", "1"⟩⟩,
                                             ⟨"b", "function", ⟨"g", "2"⟩⟩] },
                 done := true, done_reason := "tool_calls" }])
        (some []) [] ["a", "b"]
        { model := "m", messages := [{ role := "user", content := "hi" }] }).resumeReq ≠
      (streamWithFunctionCalling (fun _ _ => .ok "r")
        (some [{ message := { tool_calls := [⟨"a", "function", ⟨"f", "1"⟩⟩,
                                             ⟨"b", "function", ⟨"g", "2"⟩⟩] },
                 done := true, done_reason := "tool_calls" }])
        (some []) [] ["b", "a"]
        { model := "m", messages := [{ role := "user", content := "hi" }] }).resumeReq := by
  refine ⟨?_, ?_, by decide⟩
  · unfold ValidOrd
    decide
  · unfold ValidOrd
    decide

/-- C4 amended: the eligible records enter the assistant message in one
Go-map enumeration order (not necessarily call-arrival order, and not a
function of the input), and the appended tool-role results follow
exactly the order of that `tool_calls` list — the `i`-th result message
carries the `i`-th record's call id — so the resumed transcript is
determined once the enumeration order is fixed. -/
theorem toolResults_follow_assistant_order (exec : String → String → Except String String)
    (round2 : Option (List ChatResponse)) (req : ChatRequest)
    (content : String) (toolCalls : List ToolCall) :
    (executeAndContinue exec round2 req content toolCalls).resumeReq =
      some { req with messages := (req.messages ++
        [{ role := "assistant", content := content, tool_calls := toolCalls }] ++
        toolCalls.map (toolResultMessage exec)) } ∧
    ∀ tc : ToolCall, (toolResultMessage exec tc).tool_call_id = tc.id :=
  ⟨executeAndContinue_resumeReq exec round2 req content toolCalls, fun _ => rfl⟩

/-! Section: Claim C8 -/

/-- C8 fails on the code for `get_news`: with syntactically valid JSON
arguments that omit `topic`, the handler does not fail — it substitutes
the default topic `"world"` and runs the tool (here the backend returns
an empty article list and the call succeeds with the formatted
header). -/
theorem getNews_missing_topic_defaults_cex :
    argString [] "topic" = none ∧
    ExecuteToolCall
      { unmarshalArgs := fun _ => .ok [],
        unmarshalPortfolio := fun _ => .ok {},
        search := fun _ _ => .ok [], fetchNews := fun _ _ => .ok [],
        overview := .ok "", opportunities := .ok "", risk := .ok "",
        marketContext := .ok "", fullAnalysis := fun _ => .ok "" }
      "get_news" "" = .ok "Latest world news:\n\n" := by
  refine ⟨rfl, rfl⟩

/-- C8 amended: `web_search` with `query` missing (or not a string, or
empty) and `analyze_portfolio` with `query_type` missing both fail with
their missing-argument error for every backend — the tool is never run;
`get_news` with `topic` missing does not fail but substitutes the
default topic `"world"` and runs the tool. -/
theorem required_field_validation_amended :
    (∀ b args, argString args "query" = none →
      executeWebSearch b args = .error "query parameter is required") ∧
    (∀ b args, argString args "query" = some "" →
      executeWebSearch b args = .error "query parameter is required") ∧
    (∀ b arguments pa, b.unmarshalPortfolio arguments = .ok pa → pa.query_type = "" →
      executeAnalyzePortfolio b arguments = .error "query_type is required") ∧
    (∀ b args arts, argString args "topic" = none →
      b.fetchNews "world" ((argNum args "max_articles").getD 10) = .ok arts →
      executeGetNews b args =
        .ok ("Latest world news:\n\n" ++
          String.join (arts.enum.map (fun p => newsArticleLine p.1 p.2)))) := by
  refine ⟨?_, ?_, ?_, ?_⟩
  · intro b args h
    simp [executeWebSearch, h]
  · intro b args h
    simp [executeWebSearch, h]
  · intro b arguments pa h hq
    simp [executeAnalyzePortfolio, h, hq]
  · intro b args arts htopic hfetch
    simp [executeGetNews, htopic, hfetch]
    congr 1

theorem required_field_validation_amended_witness :
    executeWebSearch
      { unmarshalArgs := fun _ => .ok [],
        unmarshalPortfolio := fun _ => .ok {},
        search := fun _ _ => .ok [], fetchNews := fun _ _ => .ok [],
        overview := .ok "", opportunities := .ok "", risk := .ok "",
        marketContext := .ok "", fullAnalysis := fun _ => .ok "" }
      [] = .error "query parameter is required" ∧
    executeAnalyzePortfolio
      { unmarshalArgs := fun _ => .ok [],
        unmarshalPortfolio := fun _ => .ok { focus_area := "US" },
        search := fun _ _ => .ok [], fetchNews := fun _ _ => .ok [],
        overview := .ok "", opportunities := .ok "", risk := .ok "",
        marketContext := .ok "", fullAnalysis := fun _ => .ok "" }
      "x" = .error "query_type is required" ∧
    executeGetNews
      { unmarshalArgs := fun _ => .ok [],
        unmarshalPortfolio := fun _ => .ok {},
        search := fun _ _ => .ok [], fetchNews := fun _ _ => .ok [],
        overview := .ok "", opportunities := .ok "", risk := .ok "",
        marketContext := .ok "", fullAnalysis := fun _ => .ok "" }
      [] = .ok ("Latest world news:\n\n" ++
        String.join (([] : List NewsArticle).enum.map (fun p => newsArticleLine p.1 p.2))) :=
  ⟨required_field_validation_amended.1 _ [] rfl,
   required_field_validation_amended.2.2.1 _ "x" { focus_area := "US" } rfl rfl,
   required_field_validation_amended.2.2.2 _ [] [] rfl rfl⟩

/-! Section: Claim C1 -/

lemma buildEligible_nil (ord : List String) : buildEligible [] ord = [] := by
  simp [buildEligible, rangeOver, mapFind]

lemma processEvents_round2_indep (exec : String → String → Except String String)
    (req : ChatRequest) (sliceOrd : List String) (evs : List ChatResponse) :
    ∀ (st : RoundState) (round2 round2' : Option (List ChatResponse)),
      (processEvents exec round2 req sliceOrd st evs).executed =
        (processEvents exec round2' req sliceOrd st evs).executed ∧
      (processEvents exec round2 req sliceOrd st evs).resumeReq =
        (processEvents exec round2' req sliceOrd st evs).resumeReq := by
  induction evs with
  | nil =>
      intro st round2 round2'
      simp only [processEvents]
      split
      · split
        · exact ⟨by rw [executeAndContinue_executed, executeAndContinue_executed],
                 by rw [executeAndContinue_resumeReq, executeAndContinue_resumeReq]⟩
        · exact ⟨rfl, rfl⟩
      · exact ⟨rfl, rfl⟩
  | cons r rest ih =>
      intro st round2 round2'
      simp only [processEvents]
      split
      · split
        · split
          · exact ⟨by rw [executeAndContinue_executed, executeAndContinue_executed],
                   by rw [executeAndContinue_resumeReq, executeAndContinue_resumeReq]⟩
          · exact ⟨rfl, rfl⟩
        · exact ⟨rfl, rfl⟩
      · exact ih (stepState st r) round2 round2'

/-- C1 fails on the code: the generate → detect tool calls → execute →
resume cycle applies only to the first round.  Here the first round
completes with `tool_calls` and one eligible record, which is executed;
the resumed round also completes with `tool_calls` and carries an
eligible record, yet nothing of it is executed — the executed list
holds exactly the first round's record and the second round's record
never enters it. -/
theorem secondRound_toolCalls_not_executed_cex :
    ({ message := { tool_calls := [⟨"b", "function", ⟨"get_news", "2"⟩⟩] },
       done := true, done_reason := "tool_calls" } : ChatResponse).done = true ∧
    ({ message := { tool_calls := [⟨"b", "function", ⟨"get_news", "2"⟩⟩] },
       done := true, done_reason := "tool_calls" } : ChatResponse).done_reason = "tool_calls" ∧
    (∃ tc ∈ ({ message := { tool_calls := [⟨"b", "function", ⟨"get_news", "2"⟩⟩] },
               done := true, done_reason := "tool_calls" } : ChatResponse).message.tool_calls,
       tc.id ≠ "" ∧ tc.function.name ≠ "") ∧
    (streamWithFunctionCalling (fun _ _ => .ok "r")
      (some [{ message := { tool_calls := [⟨"a", "function", ⟨"web_search", "1"⟩⟩] },
               done := true, done_reason := "tool_calls" }])
      (some [{ message := { tool_calls := [⟨"b", "function", ⟨"get_news", "2"⟩⟩] },
               done := true, done_reason := "tool_calls" }])
      [] ["a"]
      { model := "m", messages := [{ role := "user", content := "hi" }] }).executed =
      [("web_search", "1")] ∧
    ("get_news", "2") ∉
      (streamWithFunctionCalling (fun _ _ => .ok "r")
        (some [{ message := { tool_calls := [⟨"a", "function", ⟨"web_search", "1"⟩⟩] },
                 done := true, done_reason := "tool_calls" }])
        (some [{ message := { tool_calls := [⟨"b", "function", ⟨"get_news", "2"⟩⟩] },
                 done := true, done_reason := "tool_calls" }])
        [] ["a"]
        { model := "m", messages := [{ role := "user", content := "hi" }] }).executed := by
  refine ⟨rfl, rfl, by decide, by decide, by decide⟩

/-- C1 amended: only the first generation round is inspected for tool
calls.  Whatever the resumed round's events are — they are streamed to
the client verbatim — they influence neither which tools are executed
nor the request of the single resumption: both are functions of the
first round alone. -/
theorem toolCycle_firstRoundOnly (exec : String → String → Except String String)
    (round1 round2 round2' : Option (List ChatResponse))
    (ords : List (List String)) (sliceOrd : List String) (req : ChatRequest) :
    (streamWithFunctionCalling exec round1 round2 ords sliceOrd req).executed =
      (streamWithFunctionCalling exec round1 round2' ords sliceOrd req).executed ∧
    (streamWithFunctionCalling exec round1 round2 ords sliceOrd req).resumeReq =
      (streamWithFunctionCalling exec round1 round2' ords sliceOrd req).resumeReq := by
  cases round1 with
  | none => exact ⟨rfl, rfl⟩
  | some evs => exact processEvents_round2_indep exec req sliceOrd evs _ round2 round2'

/-! Section: Claim C3 -/

/-- C3 fails on the code: a round that ends without any completion
event — the channel closes silently after one `done = false` delta —
still executes the accumulated eligible record.  The claim says such a
round is terminal with no tool executed. -/
theorem silentClose_executes_tools_cex :
    ({ message := { tool_calls := [⟨"1", "function", ⟨"web_search", "x"⟩⟩] } } :
      ChatResponse).done = false ∧
    (streamWithFunctionCalling (fun _ _ => .ok "r")
      (some [{ message := { tool_calls := [⟨"1", "function", ⟨"web_search", "x"⟩⟩] } }])
      (some []) [] ["1"]
      { model := "m", messages := [{ role := "user", content := "hi" }] }).executed =
      [("web_search", "x")] := by
  exact ⟨rfl, by decide⟩

lemma processEvents_executed_trigger (exec : String → String → Except String String)
    (round2 : Option (List ChatResponse)) (req : ChatRequest) (sliceOrd : List String)
    (evs : List ChatResponse) :
    ∀ st : RoundState,
      (processEvents exec round2 req sliceOrd st evs).executed ≠ [] ↔
        (buildEligible (roundEnd st evs).2.2 sliceOrd ≠ [] ∧
         ((roundEnd st evs).1 = false ∨ (roundEnd st evs).2.1 = "tool_calls")) := by
  induction evs with
  | nil =>
      intro st
      simp only [processEvents, roundEnd]
      by_cases hm : st.toolCallsMap.length > 0
      · simp only [hm, if_true]
        by_cases he : (buildEligible st.toolCallsMap sliceOrd).length > 0
        · simp only [he, if_true, executeAndContinue_executed]
          have hne : buildEligible st.toolCallsMap sliceOrd ≠ [] := by
            intro h0
            rw [h0] at he
            exact absurd he (by decide)
          simp [List.map_eq_nil_iff, hne]
        · have h0 : buildEligible st.toolCallsMap sliceOrd = [] := by
            rcases Nat.eq_zero_or_pos (buildEligible st.toolCallsMap sliceOrd).length with h | h
            · exact List.length_eq_zero.mp h
            · exact absurd h he
          simp [he, h0]
      · have h0 : st.toolCallsMap = [] := by
          rcases Nat.eq_zero_or_pos st.toolCallsMap.length with h | h
          · exact List.length_eq_zero.mp h
          · exact absurd h hm
        simp [hm, h0, buildEligible_nil]
  | cons r rest ih =>
      intro st
      simp only [processEvents, roundEnd]
      by_cases hd : r.done = true
      · simp only [hd, if_true]
        by_cases hc : (stepState st r).toolCallsMap.length > 0 ∧
            (stepState st r).finishReason = "tool_calls"
        · simp only [hc, if_true]
          by_cases he : (buildEligible (stepState st r).toolCallsMap sliceOrd).length > 0
          · have hne : buildEligible (stepState st r).toolCallsMap sliceOrd ≠ [] := by
              intro h0
              rw [h0] at he
              exact absurd he (by decide)
            simp [he, executeAndContinue_executed, List.map_eq_nil_iff, hne, hc.2]
          · have h0 : buildEligible (stepState st r).toolCallsMap sliceOrd = [] := by
              rcases Nat.eq_zero_or_pos
                  (buildEligible (stepState st r).toolCallsMap sliceOrd).length with h | h
              · exact List.length_eq_zero.mp h
              · exact absurd h he
            simp [he, h0]
        · rcases Decidable.not_and_iff_or_not.mp hc with hmap | hfin
          · have h0 : (stepState st r).toolCallsMap = [] := by
              rcases Nat.eq_zero_or_pos (stepState st r).toolCallsMap.length with h | h
              · exact List.length_eq_zero.mp h
              · exact absurd h hmap
            simp [hc, h0, buildEligible_nil]
          · simp [hc, hfin]
      · have hd' : r.done = false := by
          simpa using hd
        simp only [hd', if_false, Bool.false_eq_true]
        exact ih (stepState st r)

/-- C3 amended: tool execution happens exactly when the eligible set at
round end is non-empty and the round either completed with accumulated
finish reason `tool_calls` or ended by the channel closing without any
completion event.  In particular a `tool_calls` completion with zero
eligible records is terminal without invoking the executor, and a
completion with any other reason executes nothing — but a silent
channel close with eligible accumulated records does execute them. -/
theorem execution_trigger_characterization (exec : String → String → Except String String)
    (round2 : Option (List ChatResponse)) (ords : List (List String))
    (sliceOrd : List String) (req : ChatRequest) (evs : List ChatResponse) :
    (streamWithFunctionCalling exec (some evs) round2 ords sliceOrd req).executed ≠ [] ↔
      (buildEligible (roundEnd ⟨"", [], "", ords⟩ evs).2.2 sliceOrd ≠ [] ∧
       ((roundEnd ⟨"", [], "", ords⟩ evs).1 = false ∨
        (roundEnd ⟨"", [], "", ords⟩ evs).2.1 = "tool_calls")) :=
  processEvents_executed_trigger exec round2 req sliceOrd evs ⟨"", [], "", ords⟩

/-! Section: Claim C2 -/

/-- C2 fails on the code: a perfectly ordinary run — one content delta,
then a completion event with reason `stop` and no content — produces
one non-terminal frame for the client and no terminal frame at all: a
forwarded chunk requires non-empty content or tool-call deltas, which
the completion event lacks, and the loop then returns silently. -/
theorem stop_completion_no_terminal_frame_cex :
    (streamWithFunctionCalling (fun _ _ => .ok "r")
      (some [{ message := { content := "hi" } }, { done := true, done_reason := "stop" }])
      none [] []
      { model := "m", messages := [{ role := "user", content := "hi" }] }).frames =
      [Frame.data { message := { content := "hi" } }] ∧
    ((streamWithFunctionCalling (fun _ _ => .ok "r")
      (some [{ message := { content := "hi" } }, { done := true, done_reason := "stop" }])
      none [] []
      { model := "m", messages := [{ role := "user", content := "hi" }] }).frames.filter
        Frame.isTerminal) = [] := by
  exact ⟨by decide, by decide⟩

/-- C2 amended: the adapter's event sequence carries at most one
terminal event, always in last position, and every error is a marked
terminal event — but the sequence may also end with no terminal event
at all (a clean EOF without `[DONE]` or a finish reason closes the
channel silently), and the handler forwards no terminal frame for a
completion event without content or tool-call deltas. -/
theorem adapter_terminal_event_unique_and_last
    (parse : String → Except String OpenAIChatChunk) (model : String)
    (scanErr : Option String) (lines : List String) :
    (∀ ev ∈ (ChatStreamEvents parse model scanErr lines).dropLast, ev.done = false) ∧
    (∀ ev ∈ ChatStreamEvents parse model scanErr lines, ev.error ≠ "" → ev.done = true) := by
  induction lines with
  | nil =>
      cases scanErr with
      | none => simp [ChatStreamEvents]
      | some e => simp [ChatStreamEvents]
  | cons line rest ih =>
      by_cases h1 : line = ""
      · simpa [ChatStreamEvents, h1] using ih
      by_cases h2 : line = "data: [DONE]"
      · simp [ChatStreamEvents, h1, h2]
      by_cases h3 : line.startsWith "data: "
      case neg => simpa [ChatStreamEvents, h1, h2, h3] using ih
      cases hp : parse (line.drop 6) with
      | error e => simp [ChatStreamEvents, h1, h2, h3, hp]
      | ok chunk =>
          cases hc : chunk.choices with
          | nil => simpa [ChatStreamEvents, h1, h2, h3, hp, hc] using ih
          | cons choice cs =>
              by_cases hf : choice.finish_reason.isSome
              · simp [ChatStreamEvents, h1, h2, h3, hp, hc, hf]
              · have hev : ChatStreamEvents parse model scanErr (line :: rest) =
                    { model := chunk.model,
                      message := { role := choice.delta.role, content := choice.delta.content,
                                   tool_calls := choice.delta.tool_calls },
                      done := false, done_reason := choice.finish_reason.getD "" } ::
                    ChatStreamEvents parse model scanErr rest := by
                  simp [ChatStreamEvents, h1, h2, h3, hp, hc, hf]
                rw [hev]
                constructor
                · intro ev hmem
                  rcases hrv : ChatStreamEvents parse model scanErr rest with _ | ⟨b, l⟩
                  · rw [hrv] at hmem
                    simp at hmem
                  · rw [hrv, List.dropLast_cons₂] at hmem
                    rcases List.mem_cons.mp hmem with rfl | hmem
                    · rfl
                    · have h₁ := ih.1
                      rw [hrv] at h₁
                      exact h₁ ev hmem
                · intro ev hmem herr
                  rcases List.mem_cons.mp hmem with rfl | hmem
                  · exact absurd rfl herr
                  · exact ih.2 ev hmem herr

theorem adapter_terminal_event_unique_and_last_witness :
    ({ model := "m", done := true, error := "scanner error: connection reset" } :
      ChatResponse).done = true :=
  (adapter_terminal_event_unique_and_last (fun _ => .error "x") "m"
      (some "connection reset") []).2
    { model := "m", done := true, error := "scanner error: connection reset" }
    (by decide) (by decide)

/-! Section: Map lemmas for the accumulator claims -/

lemma collectDelta_id (m : ToolCallsMap) (ords : List (List String)) (tc : ToolCall)
    (htc : tc.id ≠ "") :
    collectDelta m ords tc = (mapSet m tc.id
      { id := tc.id,
        type := if tc.type ≠ "" then tc.type else (mapGet m tc.id).type,
        function :=
          { name := if tc.function.name ≠ "" then tc.function.name
                    else (mapGet m tc.id).function.name,
            arguments :=
              if tc.function.arguments ≠ "" then
                (mapGet m tc.id).function.arguments ++ tc.function.arguments
              else (mapGet m tc.id).function.arguments } }, ords) := by
  simp [collectDelta, htc]

lemma collectDelta_orphan_some (m : ToolCallsMap) (ords : List (List String)) (tc : ToolCall)
    (e : ToolCall) (htc : tc.id = "") (ha : tc.function.arguments ≠ "")
    (hn : tc.function.name = "")
    (hfound : (rangeOver m (ords.headD [])).find?
      (fun x => x.id != "" && x.function.name != "") = some e) :
    collectDelta m ords tc = (mapSet m e.id { e with function := { e.function with
      arguments := e.function.arguments ++ tc.function.arguments } }, ords.tail) := by
  have h1 : ¬ (tc.id ≠ "") := by simp [htc]
  unfold collectDelta
  rw [if_neg h1, if_pos (⟨ha, hn⟩ : _ ∧ _), hfound]

lemma collectDelta_orphan_none (m : ToolCallsMap) (ords : List (List String)) (tc : ToolCall)
    (htc : tc.id = "") (ha : tc.function.arguments ≠ "") (hn : tc.function.name = "")
    (hfound : (rangeOver m (ords.headD [])).find?
      (fun x => x.id != "" && x.function.name != "") = none) :
    collectDelta m ords tc = (m, ords.tail) := by
  have h1 : ¬ (tc.id ≠ "") := by simp [htc]
  unfold collectDelta
  rw [if_neg h1, if_pos (⟨ha, hn⟩ : _ ∧ _), hfound]

lemma collectDelta_skip (m : ToolCallsMap) (ords : List (List String)) (tc : ToolCall)
    (htc : tc.id = "") (h : ¬(tc.function.arguments ≠ "" ∧ tc.function.name = "")) :
    collectDelta m ords tc = (m, ords) := by
  have h1 : ¬ (tc.id ≠ "") := by simp [htc]
  unfold collectDelta
  rw [if_neg h1, if_neg h]

lemma mapFind_mapSet (m : ToolCallsMap) (k : String) (v : ToolCall) (k' : String) :
    mapFind (mapSet m k v) k' = if k' = k then some v else mapFind m k' := by
  induction m with
  | nil =>
      by_cases h : k' = k
      · simp [mapSet, mapFind, h]
      · simp [mapSet, mapFind, h, Ne.symm h]
  | cons p rest ih =>
      by_cases hpk : p.1 = k
      · by_cases h : k' = k
        · simp [mapSet, hpk, mapFind, h]
        · simp [mapSet, hpk, mapFind, h, Ne.symm h]
      · by_cases hp' : p.1 = k'
        · have h : ¬ k' = k := fun hh => hpk (hp'.trans hh)
          simp [mapSet, hpk, mapFind, hp', h]
        · simp [mapSet, hpk, mapFind, hp', ih]

lemma mapFind_mem (m : ToolCallsMap) (k : String) (v : ToolCall)
    (h : mapFind m k = some v) : (k, v) ∈ m := by
  induction m with
  | nil => exact absurd h (by simp [mapFind])
  | cons p rest ih =>
      rcases p with ⟨p1, p2⟩
      by_cases hpk : p1 = k
      · subst hpk
        simp [mapFind] at h
        cases h
        exact List.mem_cons_self _ _
      · simp [mapFind, hpk] at h
        exact List.mem_cons_of_mem _ (ih h)

lemma rangeOver_mem (m : ToolCallsMap) (ord : List String) (e : ToolCall)
    (h : e ∈ rangeOver m ord) : ∃ k0, mapFind m k0 = some e := by
  rcases List.mem_filterMap.mp h with ⟨k0, _, hk0⟩
  exact ⟨k0, hk0⟩

lemma wellKeyed_mapSet : ∀ (m : ToolCallsMap) (k : String) (v : ToolCall),
    WellKeyed m → v.id = k → WellKeyed (mapSet m k v) := by
  intro m k v
  induction m with
  | nil =>
      intro _ hv p hp
      simp only [mapSet, List.mem_singleton] at hp
      rw [hp]
      exact hv
  | cons q rest ih =>
      intro hWK hv p hp
      by_cases hq : q.1 = k
      · rw [mapSet, if_pos hq] at hp
        rcases List.mem_cons.mp hp with rfl | hp
        · exact hv
        · exact hWK p (List.mem_cons_of_mem q hp)
      · rw [mapSet, if_neg hq] at hp
        rcases List.mem_cons.mp hp with rfl | hp
        · exact hWK p (List.mem_cons_self _ _)
        · exact ih (fun x hx => hWK x (List.mem_cons_of_mem q hx)) hv p hp

lemma wellKeyed_collectDelta (m : ToolCallsMap) (ords : List (List String)) (tc : ToolCall)
    (hWK : WellKeyed m) : WellKeyed (collectDelta m ords tc).1 := by
  by_cases htc : tc.id ≠ ""
  · rw [collectDelta_id m ords tc htc]
    exact wellKeyed_mapSet m tc.id _ hWK rfl
  · have htc' : tc.id = "" := not_not.mp htc
    by_cases horph : tc.function.arguments ≠ "" ∧ tc.function.name = ""
    · cases hfound : (rangeOver m (ords.headD [])).find?
          (fun x => x.id != "" && x.function.name != "") with
      | none => rw [collectDelta_orphan_none m ords tc htc' horph.1 horph.2 hfound]; exact hWK
      | some e =>
          rw [collectDelta_orphan_some m ords tc e htc' horph.1 horph.2 hfound]
          exact wellKeyed_mapSet m e.id _ hWK rfl
    · rw [collectDelta_skip m ords tc htc' horph]
      exact hWK

lemma wellKeyed_collectDeltas (deltas : List ToolCall) :
    ∀ (m : ToolCallsMap) (ords : List (List String)),
      WellKeyed m → WellKeyed (collectDeltas m ords deltas).1 := by
  induction deltas with
  | nil => exact fun m ords h => h
  | cons tc rest ih =>
      intro m ords h
      simpa [collectDeltas] using
        ih (collectDelta m ords tc).1 (collectDelta m ords tc).2
          (wellKeyed_collectDelta m ords tc h)

lemma accumulate_wellKeyed (ords : List (List String)) (deltas : List ToolCall) :
    WellKeyed (accumulate ords deltas) :=
  wellKeyed_collectDeltas deltas [] ords (fun p hp => absurd hp (List.not_mem_nil p))

/-! Section: Claim C10 -/

lemma eligible_binding_step (m : ToolCallsMap) (ords : List (List String)) (tc : ToolCall)
    (k : String) (r : ToolCall) (hWK : WellKeyed m)
    (hfind : mapFind m k = some r) (hid : r.id ≠ "") (hname : r.function.name ≠ "") :
    ∃ r', mapFind (collectDelta m ords tc).1 k = some r' ∧ r'.id ≠ "" ∧
      r'.function.name ≠ "" ∧ ∃ s, r'.function.arguments = r.function.arguments ++ s := by
  by_cases htc : tc.id ≠ ""
  · rw [collectDelta_id m ords tc htc]
    simp only [mapFind_mapSet]
    by_cases hk : k = tc.id
    · subst hk
      have hget : mapGet m tc.id = r := by
        simp [mapGet, hfind]
      rw [if_pos rfl]
      refine ⟨_, rfl, htc, ?_, ?_⟩
      · by_cases hn : tc.function.name ≠ ""
        · simp [hget, hn]
        · simpa [hget, hn] using hname
      · by_cases ha : tc.function.arguments ≠ ""
        · exact ⟨tc.function.arguments, by simp [hget, ha]⟩
        · exact ⟨"", by simp [hget, ha, String.append_empty]⟩
    · rw [if_neg hk]
      exact ⟨r, hfind, hid, hname, "", (String.append_empty _).symm⟩
  · have htc' : tc.id = "" := not_not.mp htc
    by_cases horph : tc.function.arguments ≠ "" ∧ tc.function.name = ""
    · cases hfound : (rangeOver m (ords.headD [])).find?
          (fun x => x.id != "" && x.function.name != "") with
      | none =>
          rw [collectDelta_orphan_none m ords tc htc' horph.1 horph.2 hfound]
          exact ⟨r, hfind, hid, hname, "", (String.append_empty _).symm⟩
      | some e =>
          rw [collectDelta_orphan_some m ords tc e htc' horph.1 horph.2 hfound]
          obtain ⟨k0, hk0⟩ := rangeOver_mem m _ e (List.mem_of_find?_eq_some hfound)
          have hkey : e.id = k0 := hWK (k0, e) (mapFind_mem m k0 e hk0)
          simp only [mapFind_mapSet]
          by_cases hk : k = e.id
          · have hre : r = e := by
              rw [hk, hkey] at hfind
              exact Option.some.inj (hfind.symm.trans hk0)
            rw [if_pos hk]
            exact ⟨_, rfl, by simpa [← hre] using hid, by simpa [← hre] using hname,
              tc.function.arguments, by rw [hre]⟩
          · rw [if_neg hk]
            exact ⟨r, hfind, hid, hname, "", (String.append_empty _).symm⟩
    · rw [collectDelta_skip m ords tc htc' horph]
      exact ⟨r, hfind, hid, hname, "", (String.append_empty _).symm⟩

lemma eligible_binding_steps (deltas : List ToolCall) :
    ∀ (m : ToolCallsMap) (ords : List (List String)) (k : String) (r : ToolCall),
      WellKeyed m → mapFind m k = some r → r.id ≠ "" → r.function.name ≠ "" →
      ∃ r', mapFind ((collectDeltas m ords deltas).1) k = some r' ∧ r'.id ≠ "" ∧
        r'.function.name ≠ "" ∧ ∃ s, r'.function.arguments = r.function.arguments ++ s := by
  induction deltas with
  | nil =>
      exact fun m ords k r _ h hi hn => ⟨r, h, hi, hn, "", (String.append_empty _).symm⟩
  | cons tc rest ih =>
      intro m ords k r hWK hfind hid hname
      obtain ⟨r', hfind', hid', hname', s1, hs1⟩ :=
        eligible_binding_step m ords tc k r hWK hfind hid hname
      obtain ⟨r'', h2, hid'', hname'', s2, hs2⟩ :=
        ih (collectDelta m ords tc).1 (collectDelta m ords tc).2 k r'
          (wellKeyed_collectDelta m ords tc hWK) hfind' hid' hname'
      refine ⟨r'', by simpa [collectDeltas] using h2, hid'', hname'', s1 ++ s2, ?_⟩
      rw [hs2, hs1, String.append_assoc]

/-- C10: accumulation preserves eligibility.  In any map reachable by
accumulating a round's deltas, a record whose call id and function name
are both non-empty keeps, under any further delta sequence and any map
enumeration orders, a binding at the same key whose id and name remain
non-empty and whose arguments only ever grow by appending — once a
record is eligible it stays eligible for the rest of the round. -/
theorem eligibility_preserved (ords0 : List (List String)) (deltas0 : List ToolCall)
    (k : String) (r : ToolCall)
    (hfind : mapFind (accumulate ords0 deltas0) k = some r)
    (hid : r.id ≠ "") (hname : r.function.name ≠ "")
    (deltas : List ToolCall) (ords : List (List String)) :
    ∃ r', mapFind ((collectDeltas (accumulate ords0 deltas0) ords deltas).1) k = some r' ∧
      r'.id ≠ "" ∧ r'.function.name ≠ "" ∧
      ∃ s, r'.function.arguments = r.function.arguments ++ s :=
  eligible_binding_steps deltas (accumulate ords0 deltas0) ords k r
    (accumulate_wellKeyed ords0 deltas0) hfind hid hname

theorem eligibility_preserved_witness :
    ∃ r', mapFind ((collectDeltas
        (accumulate [] [⟨"a", "function", ⟨"f", "x"⟩⟩]) [[ "a" ]]
        [⟨"", "", ⟨"", "y"⟩⟩, ⟨"b", "function", ⟨"g", "1"⟩⟩]).1) "a" = some r' ∧
      r'.id ≠ "" ∧ r'.function.name ≠ "" ∧
      ∃ s, r'.function.arguments =
        (⟨"a", "function", ⟨"f", "x"⟩⟩ : ToolCall).function.arguments ++ s :=
  eligibility_preserved [] [⟨"a", "function", ⟨"f", "x"⟩⟩] "a" ⟨"a", "function", ⟨"f", "x"⟩⟩
    (by decide) (by decide) (by decide)
    [⟨"", "", ⟨"", "y"⟩⟩, ⟨"b", "function", ⟨"g", "1"⟩⟩] [[ "a" ]]

/-! Section: Claim C6 -/

lemma keys_mapSet (m : ToolCallsMap) (k : String) (v : ToolCall) :
    (mapSet m k v).map Prod.fst =
      if k ∈ m.map Prod.fst then m.map Prod.fst else m.map Prod.fst ++ [k] := by
  induction m with
  | nil => simp [mapSet]
  | cons p rest ih =>
      by_cases hpk : p.1 = k
      · simp [mapSet, hpk]
      · have hne : ¬ k = p.1 := fun h => hpk h.symm
        by_cases hk : k ∈ rest.map Prod.fst
        · simp [mapSet, hpk, ih, hk, hne]
        · simp [mapSet, hpk, ih, hk, hne]

lemma keys_collectDeltas (deltas : List ToolCall) (h : ∀ tc ∈ deltas, tc.id ≠ "") :
    ∀ (m : ToolCallsMap) (ords : List (List String)),
      ((collectDeltas m ords deltas).1).map Prod.fst =
        deltas.foldl (fun ks tc => if tc.id ∈ ks then ks else ks ++ [tc.id])
          (m.map Prod.fst) := by
  induction deltas with
  | nil => intro m ords; rfl
  | cons tc rest ih =>
      intro m ords
      have htc : tc.id ≠ "" := h tc (List.mem_cons_self _ _)
      have hrest : ∀ x ∈ rest, x.id ≠ "" := fun x hx => h x (List.mem_cons_of_mem _ hx)
      have hstep := collectDelta_id m ords tc htc
      simp only [collectDeltas, hstep, List.foldl_cons]
      rw [ih hrest, keys_mapSet]

lemma foldl_insertId_nodup (ids : List String) :
    ∀ ks : List String, ks.Nodup →
      (ids.foldl (fun ks i => if i ∈ ks then ks else ks ++ [i]) ks).Nodup := by
  induction ids with
  | nil => exact fun ks h => h
  | cons i rest ih =>
      intro ks h
      simp only [List.foldl_cons]
      by_cases hi : i ∈ ks
      · rw [if_pos hi]
        exact ih ks h
      · rw [if_neg hi]
        exact ih (ks ++ [i]) (by simp [List.nodup_append, h, hi])

lemma foldl_insertId_toFinset (ids : List String) :
    ∀ ks : List String,
      (ids.foldl (fun ks i => if i ∈ ks then ks else ks ++ [i]) ks).toFinset =
        ks.toFinset ∪ ids.toFinset := by
  induction ids with
  | nil => intro ks; simp
  | cons i rest ih =>
      intro ks
      simp only [List.foldl_cons]
      by_cases hi : i ∈ ks
      · rw [if_pos hi, ih]
        ext x
        simp only [Finset.mem_union, List.mem_toFinset, List.mem_cons]
        constructor
        · rintro (hx | hx)
          · exact Or.inl hx
          · exact Or.inr (Or.inr hx)
        · rintro (hx | rfl | hx)
          · exact Or.inl hx
          · exact Or.inl hi
          · exact Or.inr hx
      · rw [if_neg hi, ih]
        ext x
        simp only [Finset.mem_union, List.mem_toFinset, List.mem_cons, List.mem_append,
          List.mem_singleton]
        tauto

/-- C6: for a delta sequence in which every delta carries a non-empty
call id, the number of records in the accumulated mapping equals the
number of distinct call ids occurring in the sequence — whatever the
map enumeration oracle. -/
theorem accumulated_count_distinct_ids (ords : List (List String)) (deltas : List ToolCall)
    (h : ∀ tc ∈ deltas, tc.id ≠ "") :
    (accumulate ords deltas).length = (deltas.map ToolCall.id).toFinset.card := by
  have hkeys := keys_collectDeltas deltas h [] ords
  have hfold : deltas.foldl (fun ks tc => if tc.id ∈ ks then ks else ks ++ [tc.id])
      (([] : ToolCallsMap).map Prod.fst) =
      (deltas.map ToolCall.id).foldl (fun ks i => if i ∈ ks then ks else ks ++ [i]) [] := by
    rw [List.foldl_map]
    rfl
  have hnodup : ((accumulate ords deltas).map Prod.fst).Nodup := by
    rw [accumulate, hkeys, hfold]
    exact foldl_insertId_nodup (deltas.map ToolCall.id) [] List.nodup_nil
  have hset : ((accumulate ords deltas).map Prod.fst).toFinset =
      (deltas.map ToolCall.id).toFinset := by
    rw [accumulate, hkeys, hfold, foldl_insertId_toFinset]
    simp
  calc (accumulate ords deltas).length
      = ((accumulate ords deltas).map Prod.fst).length := (List.length_map _ _).symm
    _ = ((accumulate ords deltas).map Prod.fst).toFinset.card :=
        (List.toFinset_card_of_nodup hnodup).symm
    _ = (deltas.map ToolCall.id).toFinset.card := by rw [hset]

theorem accumulated_count_distinct_ids_witness :
    (accumulate [] [⟨"a", "function", ⟨"f", "x"⟩⟩, ⟨"b", "function", ⟨"g", "y"⟩⟩,
      ⟨"a", "", ⟨"", "z"⟩⟩]).length =
      (([⟨"a", "function", ⟨"f", "x"⟩⟩, ⟨"b", "function", ⟨"g", "y"⟩⟩,
        ⟨"a", "", ⟨"", "z"⟩⟩] : List ToolCall).map ToolCall.id).toFinset.card :=
  accumulated_count_distinct_ids []
    [⟨"a", "function", ⟨"f", "x"⟩⟩, ⟨"b", "function", ⟨"g", "y"⟩⟩, ⟨"a", "", ⟨"", "z"⟩⟩]
    (by decide)

/-! Section: Claim C5 -/

/-- C5 fails on the code in its general clause: an id-less delta whose
fragment comes with a non-empty function name is dropped — the
append-to-existing-record branch requires the delta's name to be empty
(`tc.Function.Arguments != "" && tc.Function.Name == ""`).  Here the
map holds the eligible record `a`, the delta has empty id and fragment
`"x"`, yet the step leaves the map unchanged instead of appending. -/
theorem named_fragment_dropped_cex :
    (⟨"", "", ⟨"g", "x"⟩⟩ : ToolCall).id = "" ∧
    (⟨"", "", ⟨"g", "x"⟩⟩ : ToolCall).function.arguments = "x" ∧
    mapFind (accumulate [] [⟨"a", "function", ⟨"f", ""⟩⟩]) "a" =
      some ⟨"a", "function", ⟨"f", ""⟩⟩ ∧
    (collectDelta (accumulate [] [⟨"a", "function", ⟨"f", ""⟩⟩]) [[ "a" ]]
      ⟨"", "", ⟨"g", "x"⟩⟩).1 = accumulate [] [⟨"a", "function", ⟨"f", ""⟩⟩] := by
  exact ⟨rfl, rfl, by decide, by decide⟩

/-- C5 amended: the concrete scenario holds — after `id="a",name="f"`
and the id-less, *name-less* fragments `"x"`, `"y"`, `"z"`, the record
for `"a"` has arguments `"xyz"` under every valid map enumeration — and
in general an id-less delta appends its fragment to an existing record
with non-empty id and name (the first in the runtime's enumeration
order) only when the delta's own function name is also empty. -/
theorem fragment_append_amended :
    (∀ o1 o2 o3 : List String, o1.Perm ["a"] → o2.Perm ["a"] → o3.Perm ["a"] →
      mapFind (accumulate [o1, o2, o3]
        [⟨"a", "function", ⟨"f", ""⟩⟩, ⟨"", "", ⟨"", "x"⟩⟩,
         ⟨"", "", ⟨"", "y"⟩⟩, ⟨"", "", ⟨"", "z"⟩⟩]) "a" =
        some ⟨"a", "function", ⟨"f", "xyz"⟩⟩) ∧
    (∀ (m : ToolCallsMap) (ords : List (List String)) (tc : ToolCall),
      tc.id = "" → tc.function.name = "" → tc.function.arguments ≠ "" →
      (∃ x ∈ rangeOver m (ords.headD []), x.id ≠ "" ∧ x.function.name ≠ "") →
      ∃ e, e ∈ rangeOver m (ords.headD []) ∧ e.id ≠ "" ∧ e.function.name ≠ "" ∧
        (collectDelta m ords tc).1 = mapSet m e.id { e with function := { e.function with
          arguments := e.function.arguments ++ tc.function.arguments } }) := by
  constructor
  · intro o1 o2 o3 h1 h2 h3
    rw [List.perm_singleton.mp h1, List.perm_singleton.mp h2, List.perm_singleton.mp h3]
    decide
  · intro m ords tc htc hn ha hex
    have hsome : ((rangeOver m (ords.headD [])).find?
        (fun x => x.id != "" && x.function.name != "")).isSome := by
      rw [List.find?_isSome]
      obtain ⟨x, hx, hx1, hx2⟩ := hex
      exact ⟨x, hx, by simp [hx1, hx2]⟩
    obtain ⟨e, hfound⟩ := Option.isSome_iff_exists.mp hsome
    have hpred := List.find?_some hfound
    have he1 : e.id ≠ "" := by
      intro h0
      rw [h0] at hpred
      simp at hpred
    have he2 : e.function.name ≠ "" := by
      intro h0
      rw [h0] at hpred
      simp at hpred
    refine ⟨e, List.mem_of_find?_eq_some hfound, he1, he2, ?_⟩
    rw [collectDelta_orphan_some m ords tc e htc ha hn hfound]

theorem fragment_append_amended_witness :
    mapFind (accumulate [[ "a" ], [ "a" ], [ "a" ]]
      [⟨"a", "function", ⟨"f", ""⟩⟩, ⟨"", "", ⟨"", "x"⟩⟩,
       ⟨"", "", ⟨"", "y"⟩⟩, ⟨"", "", ⟨"", "z"⟩⟩]) "a" =
      some ⟨"a", "function", ⟨"f", "xyz"⟩⟩ ∧
    ∃ e, e ∈ rangeOver [("a", ⟨"a", "function", ⟨"f", ""⟩⟩)]
        (([[ "a" ]] : List (List String)).headD []) ∧
      e.id ≠ "" ∧ e.function.name ≠ "" ∧
      (collectDelta [("a", ⟨"a", "function", ⟨"f", ""⟩⟩)] [[ "a" ]]
        ⟨"", "", ⟨"", "x"⟩⟩).1 = mapSet [("a", ⟨"a", "function", ⟨"f", ""⟩⟩)] e.id
          { e with function := { e.function with
            arguments := e.function.arguments ++
              (⟨"", "", ⟨"", "x"⟩⟩ : ToolCall).function.arguments } } :=
  ⟨fragment_append_amended.1 ["a"] ["a"] ["a"]
      (List.Perm.refl _) (List.Perm.refl _) (List.Perm.refl _),
   fragment_append_amended.2 [("a", ⟨"a", "function", ⟨"f", ""⟩⟩)] [[ "a" ]]
      ⟨"", "", ⟨"", "x"⟩⟩ rfl rfl (by decide) (by decide)⟩

end Gollama
